import Mathlib

/-!
Verification of the `SmallVector` hybrid sequence container (`vec.hpp`).

The container stores up to `N` elements inline in a byte buffer `arr_`
(placement-new constructed, explicitly destructed) and spills into an
owned `std::optional<std::vector<T>> vec_` once the inline capacity is
exceeded.  We embed the current implementation (the variant containing
`calculate_static_size`, `swap` and `get_static_size`, which the
repository's unit tests compile against).

Modelling conventions:
* `arr_ : List α` models the constructed prefix of the inline byte
  buffer: slot `i` of the C++ buffer holds the live value `arr_[i]`.
  In every well-formed inline state exactly slots `[0, size_)` are live,
  so list operations below coincide with the slot-wise placement-new /
  destroy loops of the source.
* `vec_ : Option (List α)` models `std::optional<std::vector<T>>`;
  heap capacity is not tracked (growth policy is delegated to
  `std::vector` and implementation-defined), only logical contents.
* A C++ `throw` is modelled by returning the untouched state paired with
  a `Bool` flag (the object is left unmodified by a throw).
-/

/-- State of `SmallVector<T, N>`: inline buffer (live prefix), optional
heap vector, and element count `size_`. -/
structure SV (α : Type) (N : Nat) where
  arr_ : List α
  vec_ : Option (List α)
  size_ : Nat
deriving DecidableEq

/-- `SmallVector() : size_(0) {}` — default-constructed empty container. -/
def emptySV (α : Type) (N : Nat) : SV α N := ⟨[], none, 0⟩

/-- `is_vector()`: true once the heap vector is engaged. -/
def is_vector {α : Type} {N : Nat} (s : SV α N) : Bool := s.vec_.isSome

/-- `is_array()`: `!is_vector()`. -/
def is_array {α : Type} {N : Nat} (s : SV α N) : Bool := !is_vector s

/-- The logical element sequence: the heap vector when spilled, else the
live inline prefix (every access dispatches `vec_ ? (*vec_)[i] : arr_[i]`). -/
def elems {α : Type} {N : Nat} (s : SV α N) : List α :=
  match s.vec_ with
  | some l => l
  | none => s.arr_

/-- Well-formedness maintained between public operations: inline mode has
exactly `size_ ≤ N` live slots; spilled mode has all `size_` elements in
the vector and an empty (fully destructed) inline region. -/
def WF {α : Type} {N : Nat} (s : SV α N) : Bool :=
  match s.vec_ with
  | none => s.arr_.length == s.size_ && decide (s.size_ ≤ N)
  | some l => l.length == s.size_ && s.arr_.length == 0

/-- Indices traversed by the spillover migration loop
`for (i = 0; i < size_ && i < STATIC_AMOUNT; ++i)`. -/
def spillTouched (size N : Nat) : List Nat := List.range (min size N)

/-- `spillover(capacity)`: move each live inline element (loop guard
`i < size_ && i < STATIC_AMOUNT`) into a fresh heap vector in order, and
destruct the vacated inline slots.  The `capacity` argument only sizes the
heap reservation (untracked here). -/
def spillover {α : Type} {N : Nat} (s : SV α N) : SV α N :=
  { arr_ := [],
    vec_ := some ((spillTouched s.size_ N).filterMap (fun i => s.arr_[i]?)),
    size_ := s.size_ }

/-- `push_back(val)` (both overloads, and `emplace_back`): construct in the
next inline slot while `size_ < N`; at `size_ ≥ N` spill first (with
`size_ + 1` capacity) and push onto the vector; `size_++` at the end. -/
def push_back {α : Type} {N : Nat} (s : SV α N) (v : α) : SV α N :=
  match s.vec_ with
  | none =>
    if N ≤ s.size_ then
      let sp := spillover s
      { sp with vec_ := Option.map (fun l => l ++ [v]) sp.vec_, size_ := s.size_ + 1 }
    else
      { s with arr_ := s.arr_ ++ [v], size_ := s.size_ + 1 }
  | some l => { s with vec_ := some (l ++ [v]), size_ := s.size_ + 1 }

/-- Pushing a whole list, one `push_back` at a time. -/
def pushAll {α : Type} {N : Nat} (s : SV α N) (xs : List α) : SV α N :=
  xs.foldl push_back s

/-- `clear()`: destruct every live element in whichever storage is active
and zero `size_`; a spilled container stays spilled (`vec_->clear()`). -/
def clearSV {α : Type} {N : Nat} (s : SV α N) : SV α N :=
  match s.vec_ with
  | some _ => { s with vec_ := some [], size_ := 0 }
  | none => { s with arr_ := [], size_ := 0 }

/-- `reserve(size)`: no-op if `size ≤ N`; else spill if inline, or grow
the heap capacity (logical contents unchanged). -/
def reserveSV {α : Type} {N : Nat} (s : SV α N) (n : Nat) : SV α N :=
  if n ≤ N then s
  else
    match s.vec_ with
    | none => spillover s
    | some _ => s

/-- `shrink_to_fit()`: no-op inline; delegates to the vector when spilled
(capacity-only effect, logical contents and storage mode unchanged). -/
def shrink_to_fit {α : Type} {N : Nat} (s : SV α N) : SV α N := s

/-- `insert(pos, value)` / `emplace(pos, args...)`: `size_++` first; if the
new size still fits inline, shift slots `[idx, old size)` up one (from the
back) and construct at `idx`; otherwise spill (at the already-incremented
size) and delegate to the vector.  Returns (new state, index of the
returned iterator). -/
def insertAt {α : Type} {N : Nat} (s : SV α N) (idx : Nat) (v : α) : SV α N × Nat :=
  match s.vec_ with
  | none =>
    if s.size_ + 1 ≤ N then
      ({ s with arr_ := s.arr_.take idx ++ [v] ++ s.arr_.drop idx, size_ := s.size_ + 1 }, idx)
    else
      let sp := spillover { s with size_ := s.size_ + 1 }
      match sp.vec_ with
      | some l => ({ sp with vec_ := some (l.take idx ++ [v] ++ l.drop idx) }, idx)
      | none => (sp, idx)
  | some l =>
    ({ s with vec_ := some (l.take idx ++ [v] ++ l.drop idx), size_ := s.size_ + 1 }, idx)

/-- `erase(pos)`: spilled — delegate to the vector (result iterator at
`idx`); inline — destruct slot `idx`, shift slots `(idx, size_)` down one,
`size_--`; returns `end()` (index `idx` again) when the last element was
erased, else the pointer at slot `idx`. -/
def eraseOne {α : Type} {N : Nat} (s : SV α N) (idx : Nat) : SV α N × Nat :=
  match s.vec_ with
  | some l =>
    ({ s with vec_ := some (l.take idx ++ l.drop (idx + 1)), size_ := s.size_ - 1 }, idx)
  | none =>
    let shifted := s.arr_.take idx ++ (s.arr_.drop (idx + 1)).take (s.size_ - (idx + 1))
    ({ s with arr_ := shifted, size_ := s.size_ - 1 }, idx)

/-- `erase(first, last)`: spilled — delegate to the vector, whose erase
returns the iterator at index `first`; inline — destruct slots
`[first, last)`, then the loop `for (i = last_idx; i < size_; ++i)` moves
slot `i` to `i - (last - first)`, `size_ -= last - first`, and the branch
returns `end()` when `last_idx == size_` else `get_arr_element_ptr(last_idx)`
— i.e. the iterator at index `last`, in both cases. -/
def eraseRange {α : Type} {N : Nat} (s : SV α N) (first last : Nat) : SV α N × Nat :=
  match s.vec_ with
  | some l =>
    ({ s with vec_ := some (l.take first ++ l.drop last), size_ := s.size_ - (last - first) },
      first)
  | none =>
    let shifted := s.arr_.take first ++ (s.arr_.drop last).take (s.size_ - last)
    ({ s with arr_ := shifted, size_ := s.size_ - (last - first) }, last)

/-- `pop_back()`: `erase(cend() - 1)`. -/
def pop_back {α : Type} {N : Nat} (s : SV α N) : SV α N :=
  (eraseOne s (s.size_ - 1)).1

/-- `resize(count[, value])` with `max_size() = M` (the element type's
`std::numeric_limits<T>::max()`) and `d` the fill (default-constructed for
the one-argument overload).  Returns (state, threw): early return when
`count == size_`; `throw std::length_error` (state unmodified) when
`count > max_size()`; shrink via `erase(begin() + count, end())`; grow via
`reserve(count)` then `count - size_` appends. -/
def resizeSV {α : Type} {N : Nat} (M : Nat) (d : α) (s : SV α N) (count : Nat) :
    SV α N × Bool :=
  if count = s.size_ then (s, false)
  else if M < count then (s, true)
  else if count < s.size_ then ((eraseRange s count s.size_).1, false)
  else (pushAll (reserveSV s count) (List.replicate (count - s.size_) d), false)

/-- `append(SmallVector&& other)` for two distinct containers: early return
when `other` is empty; else `reserve(size_ + other_size)`, move each of
`other`'s elements onto the back, then `other.clear()`.  Returns the new
(destination, source) pair. -/
def appendMove {α : Type} {N : Nat} (y x : SV α N) : SV α N × SV α N :=
  if x.size_ = 0 then (y, x)
  else (pushAll (reserveSV y (y.size_ + x.size_)) (elems x), clearSV x)

/-- The `this == &other` guard of the move overload: the call returns
immediately, leaving the container untouched. -/
def appendMoveSelf {α : Type} {N : Nat} (s : SV α N) : SV α N := s

/-- `append(const SmallVector& other)` for two distinct containers:
early return when `other` is empty; else reserve and copy each element
onto the back (`other` is taken by const reference and never modified). -/
def appendCopy {α : Type} {N : Nat} (y x : SV α N) : SV α N :=
  if x.size_ = 0 then y
  else pushAll (reserveSV y (y.size_ + x.size_)) (elems x)

/-- The aliased call `v.append(v)` through the copy overload, which has no
self-guard: `reserve(2 * size_)` then `std::copy(begin(), end(),
back_inserter(*this))`.  Faithful in the defined regime where no
reallocation occurs (inline, `2 * size_ ≤ N`): the source iterators stay
valid and read the original `size_` elements. -/
def appendCopySelf {α : Type} {N : Nat} (s : SV α N) : SV α N :=
  if s.size_ = 0 then s
  else pushAll (reserveSV s (s.size_ + s.size_)) (elems s)

/-- `operator==`: false on a length mismatch, else
`std::equal(begin(), end(), other.begin())` over the `size_` elements of
the active storage of each side. -/
def svBEq {α : Type} {N : Nat} [DecidableEq α] (a b : SV α N) : Bool :=
  if a.size_ ≠ b.size_ then false
  else decide ((elems a).take a.size_ = (elems b).take a.size_)

/-- `operator!=`: `!(*this == other)`. -/
def svBNe {α : Type} {N : Nat} [DecidableEq α] (a b : SV α N) : Bool :=
  !svBEq a b

/-- `operator[]` (unchecked): element `i` of the active storage; `none`
models the out-of-range undefined behaviour. -/
def opIndex {α : Type} {N : Nat} (s : SV α N) (i : Nat) : Option α :=
  (elems s)[i]?

/-- `at(i)`: `throw std::out_of_range` when `i >= size_` (container
untouched — `at` is const), else `(*this)[i]`. -/
def atE {α : Type} {N : Nat} (s : SV α N) (i : Nat) : Except String (Option α) :=
  if s.size_ ≤ i then Except.error "Out of range access"
  else Except.ok (opIndex s i)

/-- `CACHE_LINE_SIZE_BYTES`. -/
def CACHE_LINE_SIZE_BYTES : Nat := 64

/-- `MAX_SIZE_BYTES` (10 KB inline budget). -/
def MAX_SIZE_BYTES : Nat := 10240

/-- `FALLBACK_SIZE`. -/
def FALLBACK_SIZE : Nat := 8

/-- `calculate_static_size(sizeof(T))`: the compile-time default inline
capacity. -/
def calculate_static_size (size_of_t : Nat) : Nat :=
  if size_of_t ≤ CACHE_LINE_SIZE_BYTES then CACHE_LINE_SIZE_BYTES / size_of_t
  else if FALLBACK_SIZE * size_of_t ≤ MAX_SIZE_BYTES then FALLBACK_SIZE
  else if MAX_SIZE_BYTES / size_of_t = 0 then 1 else MAX_SIZE_BYTES / size_of_t

/-! ### Basic lemmas about the model -/

theorem filterMap_range_getElem {α : Type} (l : List α) (m : Nat) :
    (List.range m).filterMap (fun i => l[i]?) = l.take m := by
  induction m with
  | zero => simp
  | succ m ih =>
    rw [List.range_succ, List.filterMap_append, ih, List.take_succ]
    cases h : l[m]? <;> simp [List.filterMap_cons, h]

theorem spillover_vec {α : Type} {N : Nat} (s : SV α N) :
    (spillover s).vec_ = some (s.arr_.take (min s.size_ N)) := by
  simp [spillover, spillTouched, filterMap_range_getElem]

theorem elems_length_of_WF {α : Type} {N : Nat} (s : SV α N) (h : WF s = true) :
    (elems s).length = s.size_ := by
  rcases s with ⟨arr, vec, size⟩
  cases vec <;> simp_all [WF, elems]

theorem push_back_size {α : Type} {N : Nat} (s : SV α N) (v : α) :
    (push_back s v).size_ = s.size_ + 1 := by
  rcases s with ⟨arr, vec, size⟩
  cases vec <;> (simp [push_back]; try split) <;> rfl

theorem push_back_WF {α : Type} {N : Nat} (s : SV α N) (v : α) (h : WF s = true) :
    WF (push_back s v) = true := by
  rcases s with ⟨arr, vec, size⟩
  cases vec with
  | none =>
    simp only [WF, Bool.and_eq_true, beq_iff_eq, decide_eq_true_eq] at h
    by_cases hs : N ≤ size
    · have hsz : size = N := Nat.le_antisymm h.2 hs
      simp [push_back, hs, spillover, spillTouched, WF, filterMap_range_getElem, hsz, h.1]
    · simp [push_back, hs, WF, h.1]
      all_goals omega
  | some l =>
    simp only [WF, Bool.and_eq_true, beq_iff_eq] at h
    simp [push_back, WF, h.1, h.2]

theorem push_back_elems {α : Type} {N : Nat} (s : SV α N) (v : α) (h : WF s = true) :
    elems (push_back s v) = elems s ++ [v] := by
  rcases s with ⟨arr, vec, size⟩
  cases vec with
  | none =>
    simp only [WF, Bool.and_eq_true, beq_iff_eq, decide_eq_true_eq] at h
    by_cases hs : N ≤ size
    · have hsz : size = N := Nat.le_antisymm h.2 hs
      simp [push_back, hs, spillover, spillTouched, elems, filterMap_range_getElem, hsz, h.1]
    · simp [push_back, hs, elems]
  | some l => simp [push_back, elems]

theorem push_back_isVector {α : Type} {N : Nat} (s : SV α N) (v : α) :
    is_vector (push_back s v) = true ↔ (is_vector s = true ∨ N ≤ s.size_) := by
  rcases s with ⟨arr, vec, size⟩
  cases vec with
  | none =>
    by_cases hs : N ≤ size <;>
      simp [push_back, hs, spillover, is_vector]
  | some l => simp [push_back, is_vector]

theorem pushAll_size {α : Type} {N : Nat} (xs : List α) :
    ∀ s : SV α N, (pushAll s xs).size_ = s.size_ + xs.length := by
  induction xs with
  | nil => intro s; simp [pushAll]
  | cons x t ih =>
    intro s
    show (pushAll (push_back s x) t).size_ = _
    rw [ih, push_back_size]
    simp; omega

theorem pushAll_WF {α : Type} {N : Nat} (xs : List α) :
    ∀ s : SV α N, WF s = true → WF (pushAll s xs) = true := by
  induction xs with
  | nil => intro s h; exact h
  | cons x t ih =>
    intro s h
    exact ih (push_back s x) (push_back_WF s x h)

theorem pushAll_elems {α : Type} {N : Nat} (xs : List α) :
    ∀ s : SV α N, WF s = true → elems (pushAll s xs) = elems s ++ xs := by
  induction xs with
  | nil => intro s _; simp [pushAll]
  | cons x t ih =>
    intro s h
    show elems (pushAll (push_back s x) t) = _
    rw [ih (push_back s x) (push_back_WF s x h), push_back_elems s x h]
    simp

theorem pushAll_isVector {α : Type} {N : Nat} (xs : List α) :
    ∀ s : SV α N, is_vector (pushAll s xs) = true ↔
      (is_vector s = true ∨ (0 < xs.length ∧ N < s.size_ + xs.length)) := by
  induction xs with
  | nil => intro s; simp [pushAll]
  | cons x t ih =>
    intro s
    show is_vector (pushAll (push_back s x) t) = true ↔ _
    rw [ih, push_back_isVector, push_back_size]
    simp only [List.length_cons]
    constructor
    · rintro ((h | h) | ⟨h1, h2⟩)
      · exact Or.inl h
      · exact Or.inr ⟨by omega, by omega⟩
      · exact Or.inr ⟨by omega, by omega⟩
    · rintro (h | ⟨h1, h2⟩)
      · exact Or.inl (Or.inl h)
      · by_cases hN : N ≤ s.size_
        · exact Or.inl (Or.inr hN)
        · exact Or.inr ⟨by omega, by omega⟩

theorem reserveSV_WF {α : Type} {N : Nat} (s : SV α N) (n : Nat) (h : WF s = true) :
    WF (reserveSV s n) = true := by
  rcases s with ⟨arr, vec, size⟩
  cases vec with
  | none =>
    simp only [WF, Bool.and_eq_true, beq_iff_eq, decide_eq_true_eq] at h
    by_cases hn : n ≤ N
    · simp [reserveSV, hn, WF, h.1]
      omega
    · have hmin : min size N = size := by omega
      simp [reserveSV, hn, spillover, spillTouched, WF, filterMap_range_getElem, hmin, h.1]
  | some l =>
    by_cases hn : n ≤ N <;> simp_all [reserveSV, WF]

theorem reserveSV_elems {α : Type} {N : Nat} (s : SV α N) (n : Nat) (h : WF s = true) :
    elems (reserveSV s n) = elems s := by
  rcases s with ⟨arr, vec, size⟩
  cases vec with
  | none =>
    simp only [WF, Bool.and_eq_true, beq_iff_eq, decide_eq_true_eq] at h
    by_cases hn : n ≤ N
    · simp [reserveSV, hn]
    · have hmin : min size N = size := by omega
      simp [reserveSV, hn, spillover, spillTouched, elems, filterMap_range_getElem, hmin]
      omega
  | some l =>
    by_cases hn : n ≤ N <;> simp [reserveSV, hn, elems]

theorem reserveSV_size {α : Type} {N : Nat} (s : SV α N) (n : Nat) :
    (reserveSV s n).size_ = s.size_ := by
  rcases s with ⟨arr, vec, size⟩
  cases vec <;> (by_cases hn : n ≤ N <;> simp [reserveSV, hn, spillover])

theorem clearSV_size {α : Type} {N : Nat} (s : SV α N) : (clearSV s).size_ = 0 := by
  rcases s with ⟨arr, vec, size⟩
  cases vec <;> simp [clearSV]

/-! ### The public mutating interface as a step relation (for the one-way
mode transition): each constructor is one public operation of `vec.hpp`. -/

/-- One public mutating call. -/
inductive Op (α : Type) where
  | pushOp (v : α)
  | clearOp
  | shrinkOp
  | eraseOneOp (i : Nat)
  | eraseRangeOp (f l : Nat)
  | insertOp (i : Nat) (v : α)
  | popOp
  | reserveOp (n : Nat)
  | resizeOp (M : Nat) (d : α) (c : Nat)
  | appendOp (xs : List α)

/-- Apply one public operation (return values dropped; a throwing
`resize` leaves the container unchanged). `appendOp xs` is an append from
another container whose element sequence is `xs`. -/
def applyOp {α : Type} {N : Nat} (s : SV α N) (o : Op α) : SV α N :=
  match o with
  | .pushOp v => push_back s v
  | .clearOp => clearSV s
  | .shrinkOp => shrink_to_fit s
  | .eraseOneOp i => (eraseOne s i).1
  | .eraseRangeOp f l => (eraseRange s f l).1
  | .insertOp i v => (insertAt s i v).1
  | .popOp => pop_back s
  | .reserveOp n => reserveSV s n
  | .resizeOp M d c => (resizeSV M d s c).1
  | .appendOp xs => if xs.length = 0 then s else pushAll (reserveSV s (s.size_ + xs.length)) xs

/-- A whole sequence of public calls. -/
def applyOps {α : Type} {N : Nat} (s : SV α N) (ops : List (Op α)) : SV α N :=
  ops.foldl applyOp s

theorem reserveSV_keeps_vector {α : Type} {N : Nat} (s : SV α N) (n : Nat)
    (h : is_vector s = true) : is_vector (reserveSV s n) = true := by
  rcases s with ⟨arr, vec, size⟩
  cases vec with
  | none => simp [is_vector] at h
  | some l => by_cases hn : n ≤ N <;> simp [reserveSV, hn, is_vector]

theorem pushAll_keeps_vector {α : Type} {N : Nat} (s : SV α N) (xs : List α)
    (h : is_vector s = true) : is_vector (pushAll s xs) = true :=
  (pushAll_isVector xs s).mpr (Or.inl h)

theorem applyOp_keeps_vector {α : Type} {N : Nat} (s : SV α N) (o : Op α)
    (h : is_vector s = true) : is_vector (applyOp s o) = true := by
  cases o with
  | pushOp v =>
    exact (push_back_isVector s v).mpr (Or.inl h)
  | clearOp =>
    rcases s with ⟨arr, vec, size⟩
    cases vec <;> simp_all [applyOp, clearSV, is_vector]
  | shrinkOp => exact h
  | eraseOneOp i =>
    rcases s with ⟨arr, vec, size⟩
    cases vec <;> simp_all [applyOp, eraseOne, is_vector]
  | eraseRangeOp f l =>
    rcases s with ⟨arr, vec, size⟩
    cases vec <;> simp_all [applyOp, eraseRange, is_vector]
  | insertOp i v =>
    rcases s with ⟨arr, vec, size⟩
    cases vec <;> simp_all [applyOp, insertAt, is_vector]
  | popOp =>
    rcases s with ⟨arr, vec, size⟩
    cases vec <;> simp_all [applyOp, pop_back, eraseOne, is_vector]
  | reserveOp n => exact reserveSV_keeps_vector s n h
  | resizeOp M d c =>
    show is_vector (resizeSV M d s c).1 = true
    unfold resizeSV
    split
    · exact h
    · split
      · exact h
      · split
        · rcases s with ⟨arr, vec, size⟩
          cases vec <;> simp_all [eraseRange, is_vector]
        · exact pushAll_keeps_vector _ _ (reserveSV_keeps_vector s c h)
  | appendOp xs =>
    show is_vector (if xs.length = 0 then s else pushAll (reserveSV s (s.size_ + xs.length)) xs) = true
    split
    · exact h
    · exact pushAll_keeps_vector _ _ (reserveSV_keeps_vector s _ h)

theorem applyOps_keeps_vector {α : Type} {N : Nat} (ops : List (Op α)) :
    ∀ s : SV α N, is_vector s = true → is_vector (applyOps s ops) = true := by
  induction ops with
  | nil => intro s h; exact h
  | cons o t ih =>
    intro s h
    exact ih (applyOp s o) (applyOp_keeps_vector s o h)

/-! ### Construction/destruction counting (element lifecycle).

`CSV` instruments the state with the cumulative number of element
constructor calls (placement-new in a slot, and every move/copy
construction into the heap vector) and destructor calls (`->~T()` on an
inline slot, and destruction of heap-vector elements).  `std::vector`
reallocation move-constructs and destructs each element in equal numbers
and is therefore omitted: it cannot change the balance. -/

/-- Container state plus cumulative construct / destruct event counts. -/
structure CSV (α : Type) (N : Nat) where
  sv : SV α N
  cons : Nat
  des : Nat

/-- A freshly default-constructed container: no lifecycle events yet. -/
def cempty (α : Type) (N : Nat) : CSV α N := ⟨emptySV α N, 0, 0⟩

/-- `push_back` with event counting.  The spill path migrates
`min(size_, STATIC_AMOUNT)` elements (the loop guard), each one
move-constructed into the vector and destructed in its inline slot, then
the pushed value is constructed; the inline path constructs exactly one
element in the next slot. -/
def cpush {α : Type} {N : Nat} (c : CSV α N) (v : α) : CSV α N :=
  match c.sv.vec_ with
  | none =>
    if N ≤ c.sv.size_ then
      ⟨push_back c.sv v, c.cons + min c.sv.size_ N + 1, c.des + min c.sv.size_ N⟩
    else
      ⟨push_back c.sv v, c.cons + 1, c.des⟩
  | some _ => ⟨push_back c.sv v, c.cons + 1, c.des⟩

/-- `~SmallVector() { clear(); }` with event counting: inline — the clear
loop destructs the `size_` live slots; spilled — `vec_->clear()` destructs
every vector element, after which the `std::optional` member destroys an
empty vector (no further element destructions). -/
def cdestroy {α : Type} {N : Nat} (c : CSV α N) : CSV α N :=
  match c.sv.vec_ with
  | some l => ⟨clearSV c.sv, c.cons, c.des + l.length⟩
  | none => ⟨clearSV c.sv, c.cons, c.des + c.sv.size_⟩

/-- Counting invariant: the state is well formed and the construct excess
over destructs is exactly the number of live elements (`size_`). -/
def cinv {α : Type} {N : Nat} (c : CSV α N) : Prop :=
  WF c.sv = true ∧ c.cons = c.des + c.sv.size_

theorem cpush_inv {α : Type} {N : Nat} (c : CSV α N) (v : α) (h : cinv c) :
    cinv (cpush c v) := by
  obtain ⟨hwf, hbal⟩ := h
  have hwf2 := push_back_WF c.sv v hwf
  have hsz := push_back_size c.sv v
  unfold cinv cpush
  rcases hv : c.sv.vec_ with _ | l <;> simp only [hv]
  · by_cases hs : N ≤ c.sv.size_
    · rw [if_pos hs]
      exact ⟨hwf2, by simp only [hsz]; omega⟩
    · rw [if_neg hs]
      exact ⟨hwf2, by simp only [hsz]; omega⟩
  · exact ⟨hwf2, by simp only [hsz]; omega⟩

theorem cfold_inv {α : Type} {N : Nat} (xs : List α) :
    ∀ c : CSV α N, cinv c → cinv (xs.foldl cpush c) := by
  induction xs with
  | nil => intro c h; exact h
  | cons x t ih => intro c h; exact ih _ (cpush_inv c x h)

theorem cempty_inv {α : Type} {N : Nat} : cinv (cempty α N) := by
  constructor <;> simp [cempty, emptySV, WF]

theorem cdestroy_balanced_of_inv {α : Type} {N : Nat} (c : CSV α N) (h : cinv c) :
    (cdestroy c).cons = (cdestroy c).des := by
  obtain ⟨hwf, hbal⟩ := h
  unfold cdestroy
  unfold WF at hwf
  rcases hv : c.sv.vec_ with _ | l <;> rw [hv] at hwf <;> simp only [hv]
  · omega
  · simp only [Bool.and_eq_true, beq_iff_eq] at hwf
    omega

/-! ### Claim theorems -/

/-- C2: destroying the container destructs all live elements in whichever
storage holds them; for a construct/destruct-counting element type, any
container built by a sequence of element insertions (inline or spilled)
reports equal construct and destruct totals once the container has been
destroyed. -/
theorem lifecycle_construct_destruct_balance {α : Type} {N : Nat} (xs : List α) :
    (cdestroy (xs.foldl cpush (cempty α N))).cons =
      (cdestroy (xs.foldl cpush (cempty α N))).des :=
  cdestroy_balanced_of_inv _ (cfold_inv xs _ cempty_inv)

/-- C3: starting from a default-constructed container, a `push_back`
sequence keeps the container in inline mode exactly while the length stays
`≤ N` and switches to spilled mode on the first push that would exceed `N`
(quantifying over every prefix `xs`); and once spilled, no sequence of
public operations (`push_back`, `clear`, `erase`, `insert`, `pop_back`,
`reserve`, `resize`, `shrink_to_fit`, `append`) ever returns it to inline
mode. -/
theorem mode_transition_one_way {α : Type} {N : Nat} (xs : List α) (ops : List (Op α))
    (s : SV α N) (h : is_vector s = true) :
    (is_array (pushAll (emptySV α N) xs) = true ↔ xs.length ≤ N) ∧
    (is_vector (pushAll (emptySV α N) xs) = true ↔ N < xs.length) ∧
    is_vector (applyOps s ops) = true := by
  have hv : is_vector (pushAll (emptySV α N) xs) = true ↔
      (0 < xs.length ∧ N < xs.length) := by
    rw [pushAll_isVector]
    simp [is_vector, emptySV]
  refine ⟨?_, ?_, applyOps_keeps_vector ops s h⟩
  · rw [is_array, Bool.not_eq_true', ← Bool.not_eq_true]
    rw [hv]
    omega
  · rw [hv]
    omega

/-- C3 witness: pushing three elements onto an inline-capacity-2 container
spills it, and a spilled container stays spilled under `clear`,
`shrink_to_fit` and range `erase`. -/
theorem mode_transition_one_way_witness :
    (is_array (pushAll (emptySV Int 2) [1, 2, 3]) = true ↔
      ([1, 2, 3] : List Int).length ≤ 2) ∧
    (is_vector (pushAll (emptySV Int 2) [1, 2, 3]) = true ↔
      2 < ([1, 2, 3] : List Int).length) ∧
    is_vector (applyOps (⟨[], some [5], 1⟩ : SV Int 2)
      [Op.clearOp, Op.shrinkOp, Op.eraseRangeOp 0 0]) = true :=
  mode_transition_one_way [1, 2, 3] [Op.clearOp, Op.shrinkOp, Op.eraseRangeOp 0 0]
    ⟨[], some [5], 1⟩ (by decide)

/-- C8: the default inline capacity derived from `sizeof(T)` is
`64 / sizeof(T)` when `T` fits in a cache line, else the fallback 8, unless
`8 * sizeof(T)` exceeds the 10240-byte budget, in which case it is
`max 1 (10240 / sizeof(T))`. -/
theorem calculate_static_size_spec (s : Nat) :
    calculate_static_size s =
      if s ≤ 64 then 64 / s
      else if 8 * s ≤ 10240 then 8
      else max 1 (10240 / s) := by
  unfold calculate_static_size CACHE_LINE_SIZE_BYTES MAX_SIZE_BYTES FALLBACK_SIZE
  by_cases h1 : s ≤ 64
  · simp [h1]
  · by_cases h2 : 8 * s ≤ 10240
    · simp [h1, h2]
    · by_cases h3 : 10240 / s = 0
      · simp [h1, h2, h3]
      · have hmax : max 1 (10240 / s) = 10240 / s :=
          Nat.max_eq_right (Nat.one_le_iff_ne_zero.mpr h3)
        simp [h1, h2, h3, hmax]

/-- C5: for two distinct containers, the move-taking `append` leaves the
destination holding its original elements followed by the source's
original elements in order and empties the source (length 0), while the
copy-taking `append` produces the same concatenation (the source, taken by
const reference, is not modified by it). -/
theorem append_move_copy_spec {α : Type} {N : Nat} (y x : SV α N)
    (hy : WF y = true) (hx : WF x = true) :
    elems (appendMove y x).1 = elems y ++ elems x ∧
    (appendMove y x).1.size_ = y.size_ + x.size_ ∧
    (appendMove y x).2.size_ = 0 ∧
    elems (appendCopy y x) = elems y ++ elems x ∧
    (appendCopy y x).size_ = y.size_ + x.size_ := by
  have hlen := elems_length_of_WF x hx
  unfold appendMove appendCopy
  by_cases h0 : x.size_ = 0
  · have hnil : elems x = [] := List.length_eq_zero.mp (by omega)
    simp [h0, hnil]
  · rw [if_neg h0, if_neg h0]
    have hwr := reserveSV_WF y (y.size_ + x.size_) hy
    refine ⟨?_, ?_, clearSV_size x, ?_, ?_⟩
    · rw [pushAll_elems _ _ hwr, reserveSV_elems y _ hy]
    · rw [pushAll_size, reserveSV_size]
      omega
    · rw [pushAll_elems _ _ hwr, reserveSV_elems y _ hy]
    · rw [pushAll_size, reserveSV_size]
      omega

/-- C5 witness: `append(move of [5,6,7,8])` onto `[1,2,3,4]` yields
`[1,2,3,4,5,6,7,8]` with the source emptied; the copy overload yields the
same concatenation. -/
theorem append_move_copy_spec_witness :
    elems (appendMove (pushAll (emptySV Int 16) [1, 2, 3, 4])
        (pushAll (emptySV Int 16) [5, 6, 7, 8])).1 = [1, 2, 3, 4, 5, 6, 7, 8] ∧
    (appendMove (pushAll (emptySV Int 16) [1, 2, 3, 4])
        (pushAll (emptySV Int 16) [5, 6, 7, 8])).2.size_ = 0 ∧
    elems (appendCopy (pushAll (emptySV Int 16) [1, 2, 3, 4])
        (pushAll (emptySV Int 16) [5, 6, 7, 8])) = [1, 2, 3, 4, 5, 6, 7, 8] := by
  have h := append_move_copy_spec (pushAll (emptySV Int 16) [1, 2, 3, 4])
    (pushAll (emptySV Int 16) [5, 6, 7, 8]) (by decide) (by decide)
  refine ⟨?_, h.2.2.1, ?_⟩
  · rw [h.1]; decide
  · rw [h.2.2.2.1]; decide

/-- C4 counterexample: the copy-taking `append` has no `this == &other`
guard; self-appending the inline one-element container `[1]` duplicates it
to `[1, 1]` (length 2), so self-append is not a no-op for that overload. -/
theorem append_copy_self_not_noop :
    appendCopySelf (pushAll (emptySV Int 64) [1]) ≠ pushAll (emptySV Int 64) [1] := by
  decide

/-- C4 amended: self-append through the move-taking overload is a guarded
no-op; the copy-taking overload, lacking the guard, instead appends a
duplicate of the original elements (shown in the defined regime where the
doubled length still fits inline, so no mid-copy reallocation occurs). -/
theorem append_self_spec {α : Type} {N : Nat} (s : SV α N) (h : WF s = true)
    (hroom : s.size_ + s.size_ ≤ N) :
    appendMoveSelf s = s ∧
    elems (appendCopySelf s) = elems s ++ elems s ∧
    (appendCopySelf s).size_ = s.size_ + s.size_ := by
  have hlen := elems_length_of_WF s h
  refine ⟨rfl, ?_, ?_⟩
  · unfold appendCopySelf
    by_cases h0 : s.size_ = 0
    · have hnil : elems s = [] := List.length_eq_zero.mp (by omega)
      simp [h0, hnil]
    · rw [if_neg h0, pushAll_elems _ _ (reserveSV_WF s _ h), reserveSV_elems s _ h]
  · unfold appendCopySelf
    by_cases h0 : s.size_ = 0
    · simp [h0]
    · rw [if_neg h0, pushAll_size, reserveSV_size]
      omega

/-- C4 amended witness: on the inline container `[1]` the move-overload
self-append is the identity and the copy-overload self-append yields
`[1, 1]`. -/
theorem append_self_spec_witness :
    appendMoveSelf (pushAll (emptySV Int 64) [1]) = pushAll (emptySV Int 64) [1] ∧
    elems (appendCopySelf (pushAll (emptySV Int 64) [1])) =
      elems (pushAll (emptySV Int 64) [1]) ++ elems (pushAll (emptySV Int 64) [1]) ∧
    (appendCopySelf (pushAll (emptySV Int 64) [1])).size_ = 2 :=
  append_self_spec (pushAll (emptySV Int 64) [1]) (by decide) (by decide)

/-- C6 counterexample: for `SmallVector<bool>` the code's
`max_size() = std::numeric_limits<bool>::max() = 1`; after two push_backs
the container has length 2, and `resize(2)` takes the `count == size_`
early return and raises no error even though `2 > max_size()` — so the
claimed "raises if and only if count exceeds max_size()" fails. -/
theorem resize_no_throw_at_current_size :
    (resizeSV 1 false (pushAll (emptySV Bool 64) [true, true]) 2).2 = false ∧
    (1 : Nat) < 2 := by
  decide

/-- C6 amended: `resize(count)` raises a length error if and only if
`count` differs from the current length and exceeds `max_size()` (= `M`),
and when it raises, the container is left completely unmodified (the
throw happens before any mutation). -/
theorem resize_error_iff {α : Type} {N : Nat} (M : Nat) (d : α) (s : SV α N)
    (count : Nat) :
    ((resizeSV M d s count).2 = true ↔ (count ≠ s.size_ ∧ M < count)) ∧
    ((resizeSV M d s count).2 = true → (resizeSV M d s count).1 = s) := by
  unfold resizeSV
  by_cases h1 : count = s.size_
  · simp [h1]
  · by_cases h2 : M < count
    · simp [h1, h2]
    · by_cases h3 : count < s.size_ <;> simp [h1, h2, h3]

/-- C6 amended witness: growing the empty container past `max_size() = 2`
raises, and the raising call leaves the container unchanged. -/
theorem resize_error_iff_witness :
    (resizeSV 2 (0 : Int) (emptySV Int 4) 3).2 = true ∧
    (resizeSV 2 (0 : Int) (emptySV Int 4) 3).1 = emptySV Int 4 :=
  ⟨(resize_error_iff 2 0 (emptySV Int 4) 3).1.mpr (by decide),
    (resize_error_iff 2 0 (emptySV Int 4) 3).2
      ((resize_error_iff 2 0 (emptySV Int 4) 3).1.mpr (by decide))⟩

/-- C7: `at(i)` raises the out-of-range error exactly when `i ≥ length`
(the container, accessed const, is untouched), and for `i < length`
returns the element at index `i` of the active storage (present in either
mode). -/
theorem at_spec {α : Type} {N : Nat} (s : SV α N) (i : Nat) (h : WF s = true) :
    ((∃ e, atE s i = Except.error e) ↔ s.size_ ≤ i) ∧
    (i < s.size_ →
      atE s i = Except.ok ((elems s)[i]?) ∧ ((elems s)[i]?).isSome = true) := by
  have hlen := elems_length_of_WF s h
  unfold atE opIndex
  constructor
  · by_cases hle : s.size_ ≤ i <;> simp [hle]
  · intro hi
    rw [if_neg (by omega)]
    refine ⟨rfl, ?_⟩
    rcases h2 : (elems s)[i]? with _ | v
    · rw [List.getElem?_eq_none_iff] at h2
      omega
    · rfl

/-- C7 witness: on the length-5 container `[1,2,3,4,5]`, `at(5)` raises
the out-of-range error while `at(4)` succeeds and returns the last
element. -/
theorem at_spec_witness :
    (∃ e, atE (pushAll (emptySV Int 8) [1, 2, 3, 4, 5]) 5 = Except.error e) ∧
    (atE (pushAll (emptySV Int 8) [1, 2, 3, 4, 5]) 4 =
        Except.ok ((elems (pushAll (emptySV Int 8) [1, 2, 3, 4, 5]))[4]?) ∧
      ((elems (pushAll (emptySV Int 8) [1, 2, 3, 4, 5]))[4]?).isSome = true) :=
  ⟨(at_spec (pushAll (emptySV Int 8) [1, 2, 3, 4, 5]) 5 (by decide)).1.mpr (by decide),
    (at_spec (pushAll (emptySV Int 8) [1, 2, 3, 4, 5]) 4 (by decide)).2 (by decide)⟩

/-- C9: `a == b` holds exactly when the lengths agree and every
corresponding element compares equal — the comparison reads only the
logical element sequence, so it is independent of each side's storage
mode — and `a != b` is literally the negation of `a == b`. -/
theorem eq_operator_spec {α : Type} {N : Nat} [DecidableEq α] (a b : SV α N)
    (ha : WF a = true) (hb : WF b = true) :
    (svBEq a b = true ↔
      (a.size_ = b.size_ ∧ ∀ i, i < a.size_ → (elems a)[i]? = (elems b)[i]?)) ∧
    svBNe a b = !svBEq a b := by
  refine ⟨?_, rfl⟩
  have hla := elems_length_of_WF a ha
  have hlb := elems_length_of_WF b hb
  unfold svBEq
  by_cases hsz : a.size_ = b.size_
  · rw [if_neg (fun hne => hne hsz)]
    have hta : (elems a).take a.size_ = elems a := by
      rw [← hla]; exact List.take_length _
    have htb : (elems b).take a.size_ = elems b := by
      rw [hsz, ← hlb]; exact List.take_length _
    rw [hta, htb]
    simp only [decide_eq_true_eq]
    constructor
    · intro he
      exact ⟨hsz, fun i _ => by rw [he]⟩
    · rintro ⟨-, hpt⟩
      apply List.ext_getElem?
      intro i
      by_cases hi : i < a.size_
      · exact hpt i hi
      · rw [List.getElem?_eq_none (by omega), List.getElem?_eq_none (by omega)]
  · rw [if_pos hsz]
    simp [hsz]

/-- C9 witness: an inline `[1,2]` and a spilled `[1,2]` compare equal, and
`!=` is the negation of `==` there. -/
theorem eq_operator_spec_witness :
    svBEq (⟨[1, 2], none, 2⟩ : SV Int 8) (⟨[], some [1, 2], 2⟩ : SV Int 8) = true ∧
    svBNe (⟨[1, 2], none, 2⟩ : SV Int 8) (⟨[], some [1, 2], 2⟩ : SV Int 8) =
      !svBEq (⟨[1, 2], none, 2⟩ : SV Int 8) (⟨[], some [1, 2], 2⟩ : SV Int 8) :=
  ⟨(eq_operator_spec (⟨[1, 2], none, 2⟩ : SV Int 8) (⟨[], some [1, 2], 2⟩ : SV Int 8)
      (by decide) (by decide)).1.mpr (by decide),
    (eq_operator_spec (⟨[1, 2], none, 2⟩ : SV Int 8) (⟨[], some [1, 2], 2⟩ : SV Int 8)
      (by decide) (by decide)).2⟩

/-- C1: evaluation of the inline range-erase at the spec's own scenario.
Erasing `[index 1, index 3)` from the inline container `[0,1,2,3,4,5,6]`
removes exactly the two elements, shifts the survivors down and leaves
`[0,3,4,5,6]` of length 5 — but the inline branch returns the iterator
`get_arr_element_ptr(last_idx)`, i.e. index 3, whose element is `5`; the
first element after the removed range, `3`, sits at index 1 (which is what
the heap branch, delegating to `std::vector::erase`, would return). -/
theorem erase_range_inline_eval :
    elems (eraseRange (pushAll (emptySV Int 16) [0, 1, 2, 3, 4, 5, 6]) 1 3).1 =
      [0, 3, 4, 5, 6] ∧
    (eraseRange (pushAll (emptySV Int 16) [0, 1, 2, 3, 4, 5, 6]) 1 3).1.size_ = 5 ∧
    (eraseRange (pushAll (emptySV Int 16) [0, 1, 2, 3, 4, 5, 6]) 1 3).2 = 3 ∧
    opIndex (eraseRange (pushAll (emptySV Int 16) [0, 1, 2, 3, 4, 5, 6]) 1 3).1 3 =
      some 5 ∧
    opIndex (eraseRange (pushAll (emptySV Int 16) [0, 1, 2, 3, 4, 5, 6]) 1 3).1 1 =
      some 3 := by
  decide

/-- C10: every index the spillover migration loop touches is strictly
below both the element count at the moment of the call and the inline
capacity `N`; in particular, when `insert`/`emplace` has already
incremented `size_` to `N + 1` before spilling a full inline buffer, the
loop reads exactly the `N` original inline elements and moves exactly
those into the heap buffer in their original order. -/
theorem spillover_touches_only_live_inline {α : Type} {N : Nat} (s : SV α N)
    (hinline : s.vec_ = none) (hfull : s.arr_.length = N) (hsz : s.size_ = N + 1) :
    (∀ i, i ∈ spillTouched s.size_ N → i < s.size_ ∧ i < N) ∧
    (spillover s).vec_ = some s.arr_ := by
  constructor
  · intro i hi
    unfold spillTouched at hi
    rw [List.mem_range] at hi
    omega
  · rw [spillover_vec, hsz]
    have hmin : min (N + 1) N = N := by omega
    rw [hmin]
    congr 1
    exact List.take_of_length_le (le_of_eq hfull)

/-- C10 witness: the mid-`insert` state with `N = 2`, two live inline
elements and `size_` already incremented to 3: the loop touches only
indices below 3 and below 2, and the migrated heap buffer is exactly
`[10, 20]`. -/
theorem spillover_touches_only_live_inline_witness :
    (1 ∈ spillTouched (3 : Nat) 2 → 1 < 3 ∧ 1 < 2) ∧
    (spillover (⟨[10, 20], none, 3⟩ : SV Int 2)).vec_ = some [10, 20] :=
  ⟨fun hm =>
      (spillover_touches_only_live_inline (⟨[10, 20], none, 3⟩ : SV Int 2)
        rfl rfl rfl).1 1 hm,
    (spillover_touches_only_live_inline (⟨[10, 20], none, 3⟩ : SV Int 2)
      rfl rfl rfl).2⟩
